import Mathlib

/-!
# SFND 2D Feature Tracking: orchestration core

A shallow embedding of the hand-written parts of
`MidTermProject_Camera_Student.cpp` (frame ring buffer, region-of-interest
filter, keypoint budget) and `matching2D_Student.cpp` (descriptor matching
with ratio test, Harris suppression loop, tag dispatch).

Conventions of the embedding
* `std::vector<T>` is `List T`; `push_back` is `++ [x]`.
* A finite `float` is the rational it denotes. Comparisons of floats are
  exact; the one float product of the code, `distance * th`, is rounded to
  the nearest `float` by `roundFloat`.
* OpenCV routines (detectors, extractors, matchers, `Rect::contains`,
  `KeyPoint::overlap`, `KeyPointsFilter::retainBest`) are parameters of the
  definitions using them; those that can raise `cv::Exception` return `Except`.
-/

set_option autoImplicit false

namespace FeatureTracking

/-! ## Data model -/

/-- The type `cv::Point2f`. -/
structure Point2f where
  x : ℚ
  y : ℚ
  deriving DecidableEq

/-- The type `cv::KeyPoint` (position, diameter of the neighbourhood, response). -/
structure KeyPoint where
  pt : Point2f
  size : ℚ
  response : ℚ
  deriving DecidableEq

/-- The type `cv::Rect` with integer corner and extent. -/
structure Rect where
  x : Int
  y : Int
  width : Int
  height : Int
  deriving DecidableEq

/-! ## Region-of-interest step of `main` (lines 73-84) -/

/-- The block
`vector<KeyPoint> keypoints_in; if (bFocusOnVehicle) { for (...) if (vehicleRect.contains(it->pt)) keypoints_in.push_back(*it); } keypoints = keypoints_in;`
returning the new value of `keypoints`. The parameter `contains` is the OpenCV
method `cv::Rect::contains` applied to a `cv::Point2f`. -/
def focusOnVehicle (contains : Rect → Point2f → Bool) (bFocusOnVehicle : Bool)
    (vehicleRect : Rect) (keypoints : List KeyPoint) : List KeyPoint :=
  let keypoints_in : List KeyPoint :=
    if bFocusOnVehicle then
      keypoints.foldl
        (fun acc kp => if contains vehicleRect kp.pt then acc ++ [kp] else acc) []
    else []
  keypoints_in

/-- The rectangle hard-wired in `main`: `cv::Rect vehicleRect(535, 180, 180, 150)`. -/
def vehicleRect : Rect := ⟨535, 180, 180, 150⟩

/-! ## Frame ring buffer of `main` (lines 57-64) -/

/-- The type `cv::DMatch`. -/
structure DMatch where
  queryIdx : Int
  trainIdx : Int
  distance : ℚ
  deriving DecidableEq

/-- A descriptor matrix (`cv::Mat`): element depth code and one row per descriptor. -/
structure Mat where
  depth : Nat
  data : List (List ℚ)
  deriving DecidableEq

/-- The depth code `CV_32F`. -/
def CV_32F : Nat := 5

/-- Number of rows (`cv::Mat::rows`), the number of descriptors. -/
def Mat.rows (m : Mat) : Nat := m.data.length

/-- The call `m.convertTo(m, CV_32F)`: the depth changes, the rows stay. -/
def Mat.convertTo32F (m : Mat) : Mat := { m with depth := CV_32F }

/-- The struct `DataFrame` of `dataStructures.h` as used by `main`. -/
structure DataFrame (Image : Type) where
  cameraImg : Image
  keypoints : List KeyPoint
  descriptors : Mat
  kptMatches : List DMatch

/-- The statements
`dataBuffer.push_back(frame); if (dataBuffer.size() > 2) dataBuffer.erase(dataBuffer.begin());`. -/
def pushFrame {α : Type} (dataBuffer : List α) (frame : α) : List α :=
  let dataBuffer := dataBuffer ++ [frame]
  if dataBuffer.length > 2 then dataBuffer.drop 1 else dataBuffer

/-- The buffer after the frames of `frames` were pushed one per loop iteration,
starting from the empty `dataBuffer`. -/
def pushAll {α : Type} (frames : List α) : List α :=
  frames.foldl pushFrame []

/-! ## Keypoint budget of `main` (lines 87-98) -/

/-- The call `v.erase(v.begin() + first, v.begin() + last)`; it is defined only
for a valid range `first <= last <= v.size()`. -/
def vectorErase {α : Type} (v : List α) (first last : Nat) : Option (List α) :=
  if first ≤ last ∧ last ≤ v.length then some (v.take first ++ v.drop last) else none

/-- The block guarded by `bLimitKpts`; `retainBest` is
`cv::KeyPointsFilter::retainBest`. The result is `none` when an erase is
called on an invalid range. -/
def limitKpts (retainBest : List KeyPoint → Nat → List KeyPoint)
    (bLimitKpts : Bool) (maxKeypoints : Nat) (detectorType : String)
    (keypoints : List KeyPoint) : Option (List KeyPoint) :=
  if bLimitKpts then
    let erased : Option (List KeyPoint) :=
      if detectorType = "SHITOMASI" then
        vectorErase keypoints maxKeypoints keypoints.length
      else some keypoints
    erased.map (fun keypoints => retainBest keypoints maxKeypoints)
  else some keypoints

/-! ## `matchDescriptors` -/

/-- Ways in which the embedded code stops without a result. -/
inductive Fault where
  /-- The exception `std::out_of_range` thrown by `vector::at`. -/
  | outOfRange
  /-- A call through a `cv::Ptr` that was never assigned. -/
  | nullMatcher
  /-- The exception `cv::Exception` raised inside an OpenCV routine. -/
  | cvError
  /-- An integer division by zero. -/
  | divideByZero
  deriving DecidableEq

/-- The call `v.at(i)`. -/
def vectorAt {α : Type} (v : List α) (i : Nat) : Except Fault α :=
  match v[i]? with
  | some a => .ok a
  | none => .error .outOfRange

/-- Rounding of a rational to the nearest integer, ties to the even one. -/
def roundHalfEven (r : ℚ) : Int :=
  let f := Rat.floor r
  let d := r - (f : ℚ)
  if d < 1 / 2 then f
  else if 1 / 2 < d then f + 1
  else if f % 2 = 0 then f else f + 1

/-- The spacing of the `float` values around magnitude `a`: starting from `u`,
the least `u * 2 ^ k` with `a < u * 2 ^ 24 * 2 ^ k`, for `k` up to `fuel`. -/
def floatQuantum (a : ℚ) : Nat → ℚ → ℚ
  | 0, u => u
  | fuel + 1, u => if a < u * 16777216 then u else floatQuantum a fuel (2 * u)

/-- The `float` (IEEE 754 binary32, 24 significant bits, least spacing
`2 ^ -149`) nearest to `x`, ties to even, as a rational. Overflow to infinity
(magnitudes from `2 ^ 128` on) is not represented. -/
def roundFloat (x : ℚ) : ℚ :=
  let u := floatQuantum |x| 254 (1 / (2 ^ 149 : Nat))
  (roundHalfEven (x / u) : ℚ) * u

/-- The ratio threshold `float th{0.8}`: the `float` nearest to 0.8. -/
def th : ℚ := 13421773 / 16777216

/-- One iteration of the selection loop (lines 49-52):
`if (it->at(0).distance < it->at(1).distance * th) matches.push_back(it->at(0));`,
the product being a `float` product. -/
def ratioTestIter (matches_ : List DMatch) (it : List DMatch) : Except Fault (List DMatch) :=
  match vectorAt it 0, vectorAt it 1 with
  | .ok m0, .ok m1 =>
    if m0.distance < roundFloat (m1.distance * th) then .ok (matches_ ++ [m0])
    else .ok matches_
  | .error e, _ => .error e
  | _, .error e => .error e

/-- The selection loop `for (it = k_matches.begin(); ...)` of the `SEL_KNN` branch. -/
def ratioTestLoop : List (List DMatch) → List DMatch → Except Fault (List DMatch)
  | [], matches_ => .ok matches_
  | it :: rest, matches_ =>
    match ratioTestIter matches_ it with
    | .ok matches_ => ratioTestLoop rest matches_
    | .error e => .error e

/-- The interface `cv::DescriptorMatcher` as far as it is used; both methods
may raise `cv::Exception`. -/
structure DescriptorMatcher where
  /-- The method `match(query, train, matches)`. -/
  match_ : Mat → Mat → Except Fault (List DMatch)
  /-- The method `knnMatch(query, train, k_matches, k)`. -/
  knnMatch : Mat → Mat → Nat → Except Fault (List (List DMatch))

/-- The two matchers the code creates. -/
structure MatcherFactory where
  /-- The result of `cv::BFMatcher::create(cv::NORM_HAMMING, false)`. -/
  bruteForceHamming : DescriptorMatcher
  /-- The result of `cv::DescriptorMatcher::create(FLANNBASED)`. -/
  flannBased : DescriptorMatcher

/-- The reference parameters of `matchDescriptors` after the call. -/
structure MatchOut where
  descSource : Mat
  descRef : Mat
  matches_ : List DMatch
  deriving DecidableEq

/-- The part `// configure matcher` of `matchDescriptors` (lines 11-29): the
matcher pointer, which stays null for an unknown tag, and the two descriptor
matrices, converted to `CV_32F` on the FLANN path when the source is not. -/
def configureMatcher (cv : MatcherFactory) (descSource descRef : Mat) (matcherType : String) :
    Option DescriptorMatcher × Mat × Mat :=
  if matcherType = "MAT_BF" then (some cv.bruteForceHamming, descSource, descRef)
  else if matcherType = "MAT_FLANN" then
    if descSource.depth ≠ CV_32F then
      (some cv.flannBased, descSource.convertTo32F, descRef.convertTo32F)
    else (some cv.flannBased, descSource, descRef)
  else (none, descSource, descRef)

/-- The `SEL_KNN` branch of `matchDescriptors` (lines 41-54) for a matcher `m`:
`knnMatch` with `k = 2`, the selection loop, and the report of line 54, whose
`(k_matches.size() - matches.size()) / k_matches.size()` divides by the number
of queries. -/
def selectKnn (m : DescriptorMatcher) (descSource descRef : Mat) (matches_ : List DMatch) :
    Except Fault (List DMatch) :=
  match m.knnMatch descSource descRef 2 with
  | .error e => .error e
  | .ok k_matches =>
    match ratioTestLoop k_matches matches_ with
    | .error e => .error e
    | .ok matches_ =>
      if k_matches.length = 0 then .error .divideByZero else .ok matches_

/-- The function `matchDescriptors`: configuration, then the part
`// perform matching task` (lines 31-55). -/
def matchDescriptors (cv : MatcherFactory) (_kPtsSource _kPtsRef : List KeyPoint)
    (descSource descRef : Mat) (matches_ : List DMatch)
    (_descriptorType matcherType selectorType : String) : Except Fault MatchOut :=
  let cfg := configureMatcher cv descSource descRef matcherType
  let matcher := cfg.1
  let descSource := cfg.2.1
  let descRef := cfg.2.2
  if selectorType = "SEL_NN" then
    match matcher with
    | none => .error .nullMatcher
    | some m =>
      match m.match_ descSource descRef with
      | .ok matches_ => .ok ⟨descSource, descRef, matches_⟩
      | .error e => .error e
  else if selectorType = "SEL_KNN" then
    match matcher with
    | none => .error .nullMatcher
    | some m =>
      match selectKnn m descSource descRef matches_ with
      | .ok matches_ => .ok ⟨descSource, descRef, matches_⟩
      | .error e => .error e
  else .ok ⟨descSource, descRef, matches_⟩

/-- The matching stage of `main` (lines 116-130) on the last two buffered
frames: `prev` is `*(dataBuffer.end() - 2)`, `cur` is `*(dataBuffer.end() - 1)`. -/
def matchFrames {Image : Type} (cv : MatcherFactory) (matcherType selectorType : String)
    (prev cur : DataFrame Image) : Except Fault (DataFrame Image × DataFrame Image) :=
  match matchDescriptors cv prev.keypoints cur.keypoints prev.descriptors cur.descriptors
      [] "DES_BINARY" matcherType selectorType with
  | .ok out =>
    .ok ({ prev with descriptors := out.descSource },
         { cur with descriptors := out.descRef, kptMatches := out.matches_ })
  | .error e => .error e

/-! ## Harris suppression loop of `detKeypointsHarris` (lines 153-187) -/

/-- The threshold `double crosses{}`. -/
def crosses : ℚ := 0

/-- The constant `int minResponse = 100`. -/
def minResponse : Int := 100

/-- The constant `int apertureSize = 3`. -/
def apertureSize : Int := 3

/-- The cast `(int)` of a `float`: rounding towards zero. -/
def truncToInt (v : ℚ) : Int :=
  if 0 ≤ v then Rat.floor v else -Rat.floor (-v)

/-- The inner loop `for (auto it = keypoints.begin(); ...)` (lines 167-177):
the accepted keypoints after the loop and the final value of `cross`.
`overlap` is `cv::KeyPoint::overlap`. -/
def suppressScan (overlap : KeyPoint → KeyPoint → ℚ) (newk : KeyPoint) :
    List KeyPoint → List KeyPoint × Bool
  | [] => ([], false)
  | it :: rest =>
    if overlap newk it > crosses then
      if newk.response > it.response then
        (newk :: rest, true)
      else
        (it :: (suppressScan overlap newk rest).1, true)
    else
      (it :: (suppressScan overlap newk rest).1, (suppressScan overlap newk rest).2)

/-- The treatment of one candidate `newk` (lines 165-181): the inner loop, then
`if (!cross) keypoints.push_back(newk);`. -/
def suppressStep (overlap : KeyPoint → KeyPoint → ℚ) (keypoints : List KeyPoint)
    (newk : KeyPoint) : List KeyPoint :=
  let r := suppressScan overlap newk keypoints
  if !r.2 then r.1 ++ [newk] else r.1

/-- The candidate `newk` built for row `i`, column `j` and integer response
`response` (lines 160-163). -/
def harrisCandidate (i j : Nat) (response : Int) : KeyPoint :=
  ⟨⟨(j : ℚ), (i : ℚ)⟩, ((2 * apertureSize : Int) : ℚ), (response : ℚ)⟩

/-- The body of the pixel loops (lines 158-183) at row `i`, column `j`, where
`v` is `dst_norm.at<float>(i, j)`. -/
def harrisPixel (overlap : KeyPoint → KeyPoint → ℚ) (i j : Nat) (v : ℚ)
    (keypoints : List KeyPoint) : List KeyPoint :=
  let response : Int := truncToInt v
  if response > minResponse then
    suppressStep overlap keypoints (harrisCandidate i j response)
  else keypoints

/-- The loop over the columns `j` of row `i`; `row` holds the entries from column `j` on. -/
def harrisRow (overlap : KeyPoint → KeyPoint → ℚ) (i : Nat) :
    Nat → List ℚ → List KeyPoint → List KeyPoint
  | _, [], keypoints => keypoints
  | j, v :: row, keypoints =>
    harrisRow overlap i (j + 1) row (harrisPixel overlap i j v keypoints)

/-- The loop over the rows `i`; `rows` holds the rows from row `i` on. -/
def harrisRows (overlap : KeyPoint → KeyPoint → ℚ) :
    Nat → List (List ℚ) → List KeyPoint → List KeyPoint
  | _, [], keypoints => keypoints
  | i, row :: rows, keypoints =>
    harrisRows overlap (i + 1) rows (harrisRow overlap i 0 row keypoints)

/-- The two nested pixel loops of `detKeypointsHarris` over the normalized
response map `dst_norm`, given row by row, updating `keypoints`. -/
def harrisSuppression (overlap : KeyPoint → KeyPoint → ℚ) (dst_norm : List (List ℚ))
    (keypoints : List KeyPoint) : List KeyPoint :=
  harrisRows overlap 0 dst_norm keypoints

/-! ## Tag dispatch of `detKeypointsModern` and `descKeypoints` -/

/-- The OpenCV routines reached from the detector and extractor dispatch. Each
may raise `cv::Exception`. -/
structure OpenCV (Image : Type) where
  cvtColorBGR2GRAY : Image → Except Fault Image
  detectBRISK : Image → Except Fault (List KeyPoint)
  detectSIFT : Image → Except Fault (List KeyPoint)
  detectFAST : Image → Except Fault (List KeyPoint)
  detectORB : Image → Except Fault (List KeyPoint)
  detectAKAZE : Image → Except Fault (List KeyPoint)
  goodFeaturesToTrack : Image → Except Fault (List Point2f)
  cornerHarrisNormalized : Image → Except Fault (List (List ℚ))
  overlap : KeyPoint → KeyPoint → ℚ
  computeBRISK : Image → List KeyPoint → Except Fault (List KeyPoint × Mat)
  computeAKAZE : Image → List KeyPoint → Except Fault (List KeyPoint × Mat)
  computeKAZE : Image → List KeyPoint → Except Fault (List KeyPoint × Mat)
  computeMSER : Image → List KeyPoint → Except Fault (List KeyPoint × Mat)
  computeORB : Image → List KeyPoint → Except Fault (List KeyPoint × Mat)
  computeSIFT : Image → List KeyPoint → Except Fault (List KeyPoint × Mat)
  computeFREAK : Image → List KeyPoint → Except Fault (List KeyPoint × Mat)

/-- The function `detKeypointsShiTomasi` without its display part: every
corner is appended as a keypoint of size `blockSize = 4`. The result is the
image and the keypoints after the call. -/
def detKeypointsShiTomasi {Image : Type} (cv : OpenCV Image) (keypoints : List KeyPoint)
    (img : Image) : Except Fault (Image × List KeyPoint) :=
  match cv.goodFeaturesToTrack img with
  | .ok corners => .ok (img, keypoints ++ corners.map (fun c => ⟨⟨c.x, c.y⟩, 4, 0⟩))
  | .error e => .error e

/-- The function `detKeypointsHarris` without its display part. -/
def detKeypointsHarris {Image : Type} (cv : OpenCV Image) (keypoints : List KeyPoint)
    (img : Image) : Except Fault (Image × List KeyPoint) :=
  match cv.cvtColorBGR2GRAY img with
  | .ok img =>
    match cv.cornerHarrisNormalized img with
    | .ok dst_norm => .ok (img, harrisSuppression cv.overlap dst_norm keypoints)
    | .error e => .error e
  | .error e => .error e

/-- The call `detector->detect(img, keypoints)`, which overwrites `keypoints`. -/
def runDetect {Image : Type} (detect : Image → Except Fault (List KeyPoint)) (img : Image) :
    Except Fault (Image × List KeyPoint) :=
  match detect img with
  | .ok keypoints => .ok (img, keypoints)
  | .error e => .error e

/-- The function `detKeypointsModern` without its display part. -/
def detKeypointsModern {Image : Type} (cv : OpenCV Image) (keypoints : List KeyPoint)
    (img : Image) (detectorType : String) : Except Fault (Image × List KeyPoint) :=
  match cv.cvtColorBGR2GRAY img with
  | .ok img =>
    if detectorType = "BRISK" then runDetect cv.detectBRISK img
    else if detectorType = "SIFT" then runDetect cv.detectSIFT img
    else if detectorType = "FAST" then runDetect cv.detectFAST img
    else if detectorType = "ORB" then runDetect cv.detectORB img
    else if detectorType = "AKAZE" then runDetect cv.detectAKAZE img
    else if detectorType = "HARRIS" then detKeypointsHarris cv keypoints img
    else detKeypointsShiTomasi cv keypoints img
  | .error e => .error e

/-- The function `descKeypoints`: the keypoints and descriptors after
`extractor->compute(img, keypoints, descriptors)`. -/
def descKeypoints {Image : Type} (cv : OpenCV Image) (keypoints : List KeyPoint)
    (img : Image) (descriptorType : String) : Except Fault (List KeyPoint × Mat) :=
  let extractor : Image → List KeyPoint → Except Fault (List KeyPoint × Mat) :=
    if descriptorType = "BRISK" then cv.computeBRISK
    else if descriptorType = "AKAZE" then cv.computeAKAZE
    else if descriptorType = "KAZE" then cv.computeKAZE
    else if descriptorType = "MSER" then cv.computeMSER
    else if descriptorType = "ORB" then cv.computeORB
    else if descriptorType = "SIFT" then cv.computeSIFT
    else cv.computeFREAK
  extractor img keypoints

/-! ## Concrete data used in the examples below -/

/-- An overlap measure that is positive exactly when `cv::KeyPoint::overlap`
is for keypoints of positive size: the two discs of diameter `size` meet,
that is, the squared centre distance is below the squared sum of the radii. -/
def diskOverlap (a b : KeyPoint) : ℚ :=
  if (a.pt.x - b.pt.x) ^ 2 + (a.pt.y - b.pt.y) ^ 2 < ((a.size + b.size) / 2) ^ 2 then 1 else 0

/-- A matcher that pairs every query row with the first `k` train rows, the
`j`-th of them at distance `j + 1`, and never raises an exception. -/
def gridMatcher : DescriptorMatcher where
  match_ := fun q t =>
    .ok (if t.rows = 0 then []
      else (List.range q.rows).map (fun (i : Nat) => ⟨(i : Int), 0, 1⟩))
  knnMatch := fun q t k =>
    .ok ((List.range q.rows).map (fun (i : Nat) =>
      (List.range (min k t.rows)).map (fun (j : Nat) => ⟨(i : Int), (j : Int), (j : ℚ) + 1⟩)))

/-- OpenCV routines for images without content: the Shi-Tomasi corner search
reports one corner, the other detectors none, and only the FREAK extractor
yields descriptors of depth `CV_32F`. -/
def stubCV : OpenCV Unit where
  cvtColorBGR2GRAY := fun img => .ok img
  detectBRISK := fun _ => .ok []
  detectSIFT := fun _ => .ok []
  detectFAST := fun _ => .ok []
  detectORB := fun _ => .ok []
  detectAKAZE := fun _ => .ok []
  goodFeaturesToTrack := fun _ => .ok [⟨1, 1⟩]
  cornerHarrisNormalized := fun _ => .ok []
  overlap := diskOverlap
  computeBRISK := fun _ kps => .ok (kps, ⟨0, []⟩)
  computeAKAZE := fun _ kps => .ok (kps, ⟨0, []⟩)
  computeKAZE := fun _ kps => .ok (kps, ⟨0, []⟩)
  computeMSER := fun _ kps => .ok (kps, ⟨0, []⟩)
  computeORB := fun _ kps => .ok (kps, ⟨0, []⟩)
  computeSIFT := fun _ kps => .ok (kps, ⟨0, []⟩)
  computeFREAK := fun _ kps => .ok (kps, ⟨CV_32F, []⟩)

/-- A frame without image content holding `n` keypoints and their `n`
one-dimensional descriptors of depth 0. -/
def stubFrame (n : Nat) : DataFrame Unit :=
  ⟨(), List.replicate n ⟨⟨1, 1⟩, 4, 0⟩, ⟨0, List.replicate n [1]⟩, []⟩

/-! ## Statements of the specification -/

/-- The candidates of row `i` from column `j` on, in scan order. -/
def rowCandidates (i : Nat) : Nat → List ℚ → List KeyPoint
  | _, [] => []
  | j, v :: row =>
    (if truncToInt v > minResponse then [harrisCandidate i j (truncToInt v)] else [])
      ++ rowCandidates i (j + 1) row

/-- The candidates of the rows from row `i` on, in scan order. -/
def mapCandidates : Nat → List (List ℚ) → List KeyPoint
  | _, [] => []
  | i, row :: rows => rowCandidates i 0 row ++ mapCandidates (i + 1) rows

/-- Whether candidate `newk` has a strictly higher response than some accepted
keypoint it crosses, the condition under which the step overwrites a keypoint. -/
def replaces (overlap : KeyPoint → KeyPoint → ℚ) (keypoints : List KeyPoint)
    (newk : KeyPoint) : Bool :=
  keypoints.any (fun k => decide (overlap newk k > crosses) && decide (newk.response > k.response))

/-- The number of accepted keypoints that candidate `newk` crosses. -/
def crossedCount (overlap : KeyPoint → KeyPoint → ℚ) (keypoints : List KeyPoint)
    (newk : KeyPoint) : Nat :=
  keypoints.countP (fun k => decide (overlap newk k > crosses))

/-- Whether in the suppression of the candidates `cands`, started on
`keypoints`, every candidate that overwrites an accepted keypoint crosses no
other accepted keypoint at that moment. -/
def isolatedOverwrites (overlap : KeyPoint → KeyPoint → ℚ) :
    List KeyPoint → List KeyPoint → Bool
  | _, [] => true
  | keypoints, newk :: cands =>
    (!replaces overlap keypoints newk || decide (crossedCount overlap keypoints newk ≤ 1)) &&
      isolatedOverwrites overlap (suppressStep overlap keypoints newk) cands

/-- The assumption on the external matcher: every match it returns has its
`queryIdx` within the first (query) descriptor set and its `trainIdx` within
the second (train) descriptor set. -/
def IndexContract (m : DescriptorMatcher) : Prop :=
  (∀ q t ms, m.match_ q t = .ok ms → ∀ d ∈ ms,
    0 ≤ d.queryIdx ∧ d.queryIdx < q.rows ∧ 0 ≤ d.trainIdx ∧ d.trainIdx < t.rows) ∧
  (∀ q t k ks, m.knnMatch q t k = .ok ks → ∀ it ∈ ks, ∀ d ∈ it,
    0 ≤ d.queryIdx ∧ d.queryIdx < q.rows ∧ 0 ≤ d.trainIdx ∧ d.trainIdx < t.rows)

/-- The assumption that the matcher raises no exception: `match` returns, and
`knnMatch` with `k = 2`, given at least one query descriptor and at least two
train descriptors, returns a non-empty list with two candidates per query. -/
def MatcherReturns (m : DescriptorMatcher) : Prop :=
  (∀ q t, ∃ ms, m.match_ q t = .ok ms) ∧
  (∀ q t, 1 ≤ q.rows → 2 ≤ t.rows →
    ∃ ks, m.knnMatch q t 2 = .ok ks ∧ ks ≠ [] ∧ ∀ it ∈ ks, 2 ≤ it.length)

/-- A valid index into a sequence of `n` elements. -/
def validIndex (i : Int) (n : Nat) : Prop := 0 ≤ i ∧ i < n

/-! ## Region-of-interest step -/

/-- C6: with the region-of-interest flag cleared the step still assigns the
empty `keypoints_in` to `keypoints`, whatever `Rect::contains` computes: a
detected keypoint is lost, so the sequence handed on differs from the detector
output. -/
theorem focusOnVehicle_disabled_clears :
    ∀ contains : Rect → Point2f → Bool,
      focusOnVehicle contains false vehicleRect [⟨⟨600, 200⟩, 7, 0⟩] = [] ∧
      focusOnVehicle contains false vehicleRect [⟨⟨600, 200⟩, 7, 0⟩]
        ≠ [⟨⟨600, 200⟩, 7, 0⟩] := by
  intro contains
  constructor
  · rfl
  · simp [focusOnVehicle]

/-! ## Ring buffer -/

theorem pushAll_append_singleton {α : Type} (frames : List α) (frame : α) :
    pushAll (frames ++ [frame]) = pushFrame (pushAll frames) frame := by
  simp [pushAll, List.foldl_append]

theorem pushFrame_lastTwo {α : Type} (frames : List α) (frame : α) :
    pushFrame (frames.drop (frames.length - 2)) frame
      = (frames ++ [frame]).drop ((frames ++ [frame]).length - 2) := by
  rcases Nat.lt_or_ge frames.length 2 with hlt | hge
  · have h0 : frames.length - 2 = 0 := by omega
    have h1 : (frames ++ [frame]).length - 2 = 0 := by
      simp only [List.length_append, List.length_singleton]; omega
    rw [h0, h1]
    simp only [List.drop_zero, pushFrame, List.length_append, List.length_singleton]
    rw [if_neg (by omega)]
  · have hlen : (frames.drop (frames.length - 2)).length = 2 := by
      simp only [List.length_drop]; omega
    have h1 : frames.length + 1 - 2 = frames.length - 2 + 1 := by omega
    simp only [pushFrame, List.length_append, List.length_singleton, hlen]
    rw [if_pos (by omega), h1, ← List.drop_drop,
      List.drop_append_of_le_length (show frames.length - 2 ≤ frames.length by omega)]

theorem pushAll_eq_drop {α : Type} (frames : List α) :
    pushAll frames = frames.drop (frames.length - 2) := by
  induction frames using List.reverseRecOn with
  | nil => rfl
  | append_singleton frames frame ih =>
    rw [pushAll_append_singleton, ih, pushFrame_lastTwo]

/-- C2: after `n ≥ 1` pushes the buffer holds exactly the last `min n 2`
pushed frames in push order; so it never holds more than two frames, its last
element is the frame just pushed, and for `n ≥ 2` the element before the last
is the frame pushed second to last. -/
theorem pushAll_holds_last_frames {α : Type} (frames : List α) (hn : 1 ≤ frames.length) :
    pushAll frames = frames.drop (frames.length - min frames.length 2) ∧
    (pushAll frames).length = min frames.length 2 ∧
    (pushAll frames).length ≤ 2 ∧
    (pushAll frames).getLast? = frames[frames.length - 1]? ∧
    (2 ≤ frames.length →
      (pushAll frames)[(pushAll frames).length - 2]? = frames[frames.length - 2]?) := by
  have hsub : frames.length - min frames.length 2 = frames.length - 2 := by omega
  have hlen : (pushAll frames).length = min frames.length 2 := by
    rw [pushAll_eq_drop, List.length_drop]; omega
  refine ⟨by rw [hsub, pushAll_eq_drop], hlen, by omega, ?_, ?_⟩
  · rw [List.getLast?_eq_getElem?, hlen, pushAll_eq_drop, List.getElem?_drop]
    congr 1; omega
  · intro h2
    rw [hlen, pushAll_eq_drop, List.getElem?_drop]
    congr 1; omega

/-- C2, instance: five pushed frames leave the last two in the buffer. -/
theorem pushAll_holds_last_frames_witness :
    1 ≤ [10, 11, 12, 13, 14].length ∧ pushAll [10, 11, 12, 13, 14] = [13, 14] :=
  ⟨by decide, (pushAll_holds_last_frames [10, 11, 12, 13, 14] (by decide)).1⟩

/-! ## Keypoint budget -/

/-- C7: for the detector tag SHITOMASI, a budget of 50 and three keypoints, the
step calls `erase` on the range from position 50 to the end, which lies past
the end of the sequence; no keypoint sequence results, whatever `retainBest`
does. -/
theorem limitKpts_shitomasi_erases_past_end :
    ∀ retainBest : List KeyPoint → Nat → List KeyPoint,
      vectorErase [(⟨⟨1, 1⟩, 4, 0⟩ : KeyPoint), ⟨⟨2, 2⟩, 4, 0⟩, ⟨⟨3, 3⟩, 4, 0⟩] 50 3 = none ∧
      limitKpts retainBest true 50 "SHITOMASI"
        [⟨⟨1, 1⟩, 4, 0⟩, ⟨⟨2, 2⟩, 4, 0⟩, ⟨⟨3, 3⟩, 4, 0⟩] = none := by
  intro retainBest
  constructor <;> rfl

/-! ## Ratio-test selection -/

theorem ratioTestIter_two (matches_ : List DMatch) (m0 m1 : DMatch) (more : List DMatch) :
    ratioTestIter matches_ (m0 :: m1 :: more)
      = .ok (if m0.distance < roundFloat (m1.distance * th) then matches_ ++ [m0]
          else matches_) := by
  simp only [ratioTestIter, vectorAt, List.getElem?_cons_zero, List.getElem?_cons_succ]
  split_ifs <;> rfl

theorem ratioTestIter_short (matches_ : List DMatch) (it : List DMatch) (h : it.length < 2) :
    ratioTestIter matches_ it = .error .outOfRange := by
  match it, h with
  | [], _ => rfl
  | [_], _ => rfl

theorem ratioTestLoop_pairs_from (pairs : List (DMatch × DMatch)) (matches_ : List DMatch) :
    ratioTestLoop (pairs.map (fun p => [p.1, p.2])) matches_
      = .ok (matches_ ++ (pairs.filter
          (fun p => decide (p.1.distance < roundFloat (p.2.distance * th)))).map Prod.fst) := by
  induction pairs generalizing matches_ with
  | nil => simp [ratioTestLoop]
  | cons p rest ih =>
    simp only [List.map_cons, ratioTestLoop, ratioTestIter_two, List.filter_cons]
    by_cases h : p.1.distance < roundFloat (p.2.distance * th)
    · simp [h, ih]
    · simp [h, ih]

/-- C3, as stated, fails: for the two `float` distances `d1 = 13421779 / 2^24`
and `d2 = 2097153 / 2^21` we have `d1 ≤ d2` and `d1 < 0.8 * d2`, but the `float`
product `d2 * th` rounds to `d1`, so the loop emits no match for the query. -/
theorem ratioTestLoop_float_counterexample :
    (13421779 / 16777216 : ℚ) ≤ 2097153 / 2097152 ∧
    (13421779 / 16777216 : ℚ) < 4 / 5 * (2097153 / 2097152) ∧
    roundFloat (13421779 / 16777216) = 13421779 / 16777216 ∧
    roundFloat (2097153 / 2097152) = 2097153 / 2097152 ∧
    roundFloat (2097153 / 2097152 * th) = 13421779 / 16777216 ∧
    ratioTestLoop [[⟨0, 0, 13421779 / 16777216⟩, ⟨0, 1, 2097153 / 2097152⟩]] [] = .ok [] := by
  refine ⟨by norm_num, by norm_num, ?_, ?_, ?_, ?_⟩ <;> with_unfolding_all rfl

/-- C3, amended: when every query has two candidates `(m1, m2)` and the match
list starts empty, the selection loop returns exactly the closest candidates
`m1` of the queries with `m1.distance < fl(m2.distance * th)`, in query order,
where `th` is the `float` nearest to 0.8 and `fl` rounds the product to the
nearest `float`; the other queries contribute nothing, and the result is a
subsequence of the closest candidates. -/
theorem ratioTestLoop_selects (pairs : List (DMatch × DMatch)) :
    ratioTestLoop (pairs.map (fun p => [p.1, p.2])) []
      = .ok ((pairs.filter
          (fun p => decide (p.1.distance < roundFloat (p.2.distance * th)))).map Prod.fst) ∧
    ((pairs.filter
        (fun p => decide (p.1.distance < roundFloat (p.2.distance * th)))).map Prod.fst).Sublist
      (pairs.map Prod.fst) ∧
    th = roundFloat (4 / 5) := by
  refine ⟨?_, (List.filter_sublist _).map _, by with_unfolding_all rfl⟩
  simpa using ratioTestLoop_pairs_from pairs []

/-- C4, as stated, fails: a query with a single candidate makes the loop end
with `std::out_of_range`, although the same input without that query yields
a match. -/
theorem ratioTestLoop_short_query_counterexample :
    ratioTestLoop [[⟨0, 0, 1⟩, ⟨0, 1, 2⟩], [⟨1, 0, 1⟩]] [] = .error .outOfRange ∧
    ratioTestLoop [[⟨0, 0, 1⟩, ⟨0, 1, 2⟩]] [] = .ok [⟨0, 0, 1⟩] := by
  constructor <;> with_unfolding_all rfl

/-- C4, amended: a list of candidate lists that contains a query with fewer
than two candidates makes the selection loop end with `std::out_of_range`,
whatever the other queries and the initial match list are. -/
theorem ratioTestLoop_short_query_fails (k_matches : List (List DMatch))
    (matches_ : List DMatch) (h : ∃ it ∈ k_matches, it.length < 2) :
    ratioTestLoop k_matches matches_ = .error .outOfRange := by
  induction k_matches generalizing matches_ with
  | nil => obtain ⟨it, hit, _⟩ := h; cases hit
  | cons it rest ih =>
    by_cases hshort : it.length < 2
    · simp [ratioTestLoop, ratioTestIter_short matches_ it hshort]
    · obtain ⟨it2, hmem, hlen⟩ := h
      have hrest : ∃ it ∈ rest, it.length < 2 := by
        rcases List.mem_cons.1 hmem with heq | hin
        · exact absurd (heq ▸ hlen) hshort
        · exact ⟨it2, hin, hlen⟩
      match it, hshort with
      | [], hs => exact absurd (by simp) hs
      | [_], hs => exact absurd (by simp) hs
      | m0 :: m1 :: more, _ =>
        simp only [ratioTestLoop, ratioTestIter_two]
        exact ih _ hrest

/-- C4, amended, instance: an empty candidate list after a well-formed query. -/
theorem ratioTestLoop_short_query_fails_witness :
    (∃ it ∈ [[(⟨0, 0, 1⟩ : DMatch), ⟨0, 1, 2⟩], []], it.length < 2) ∧
    ratioTestLoop [[⟨0, 0, 1⟩, ⟨0, 1, 2⟩], []] [] = .error .outOfRange :=
  ⟨⟨[], by simp, by decide⟩,
   ratioTestLoop_short_query_fails [[⟨0, 0, 1⟩, ⟨0, 1, 2⟩], []] [] ⟨[], by simp, by decide⟩⟩

/-! ## One Harris suppression step -/

theorem suppressScan_keep (overlap : KeyPoint → KeyPoint → ℚ) (newk : KeyPoint)
    (keypoints : List KeyPoint)
    (h : ∀ k ∈ keypoints, ¬ (overlap newk k > crosses ∧ newk.response > k.response)) :
    suppressScan overlap newk keypoints
      = (keypoints, decide (∃ k ∈ keypoints, overlap newk k > crosses)) := by
  induction keypoints with
  | nil => simp [suppressScan]
  | cons it rest ih =>
    have hrest := ih (fun k hk => h k (List.mem_cons_of_mem _ hk))
    have hit := h it (List.mem_cons_self _ _)
    by_cases hc : overlap newk it > crosses
    · have hr : ¬ newk.response > it.response := fun hr => hit ⟨hc, hr⟩
      simp [suppressScan, hc, hr, hrest]
    · simp [suppressScan, hc, hrest]

theorem suppressScan_replace (overlap : KeyPoint → KeyPoint → ℚ) (newk : KeyPoint)
    (keypoints : List KeyPoint)
    (h : ∃ k ∈ keypoints, overlap newk k > crosses ∧ newk.response > k.response) :
    ∃ i k, keypoints[i]? = some k ∧ overlap newk k > crosses ∧ newk.response > k.response ∧
      (∀ j k2, j < i → keypoints[j]? = some k2 →
        ¬ (overlap newk k2 > crosses ∧ newk.response > k2.response)) ∧
      suppressScan overlap newk keypoints = (keypoints.set i newk, true) := by
  induction keypoints with
  | nil => obtain ⟨k, hk, _⟩ := h; cases hk
  | cons it rest ih =>
    by_cases hit : overlap newk it > crosses ∧ newk.response > it.response
    · refine ⟨0, it, by simp, hit.1, hit.2, ?_, ?_⟩
      · intro j k2 hj; omega
      · simp [suppressScan, hit.1, hit.2]
    · have hrest : ∃ k ∈ rest, overlap newk k > crosses ∧ newk.response > k.response := by
        obtain ⟨k, hk, hp⟩ := h
        rcases List.mem_cons.1 hk with heq | hin
        · exact absurd (heq ▸ hp) hit
        · exact ⟨k, hin, hp⟩
      obtain ⟨i, k, hik, hc, hr, hfirst, hscan⟩ := ih hrest
      refine ⟨i + 1, k, by simpa using hik, hc, hr, ?_, ?_⟩
      · intro j k2 hj hjk
        cases j with
        | zero =>
          have : it = k2 := by simpa using hjk
          exact this ▸ hit
        | succ j => exact hfirst j k2 (by omega) (by simpa using hjk)
      · by_cases hcit : overlap newk it > crosses
        · have hrit : ¬ newk.response > it.response := fun hr => hit ⟨hcit, hr⟩
          simp [suppressScan, hcit, hrit, hscan]
        · simp [suppressScan, hcit, hscan]

/-- C10: one suppression step on the accepted list `keypoints` with candidate
`newk`. (i) If `newk` crosses no accepted keypoint it is appended at the end.
(ii) If it crosses one, the length is unchanged; when some crossed keypoint has
a strictly lower response, `newk` is written over the first such keypoint, at
the same index, and all other entries stay; when every crossed keypoint has a
response at least that of `newk`, the list is unchanged. -/
theorem suppressStep_cases (overlap : KeyPoint → KeyPoint → ℚ) (keypoints : List KeyPoint)
    (newk : KeyPoint) :
    ((∀ k ∈ keypoints, ¬ overlap newk k > crosses) →
      suppressStep overlap keypoints newk = keypoints ++ [newk]) ∧
    ((∃ k ∈ keypoints, overlap newk k > crosses) →
      (suppressStep overlap keypoints newk).length = keypoints.length ∧
      ((∃ k ∈ keypoints, overlap newk k > crosses ∧ newk.response > k.response) →
        ∃ i k, keypoints[i]? = some k ∧ overlap newk k > crosses ∧
          newk.response > k.response ∧
          (∀ j k2, j < i → keypoints[j]? = some k2 →
            ¬ (overlap newk k2 > crosses ∧ newk.response > k2.response)) ∧
          suppressStep overlap keypoints newk = keypoints.set i newk ∧
          (∀ j, j ≠ i → (suppressStep overlap keypoints newk)[j]? = keypoints[j]?)) ∧
      ((∀ k ∈ keypoints, overlap newk k > crosses → newk.response ≤ k.response) →
        suppressStep overlap keypoints newk = keypoints)) := by
  have hreplace : (∃ k ∈ keypoints, overlap newk k > crosses ∧ newk.response > k.response) →
      ∃ i k, keypoints[i]? = some k ∧ overlap newk k > crosses ∧
        newk.response > k.response ∧
        (∀ j k2, j < i → keypoints[j]? = some k2 →
          ¬ (overlap newk k2 > crosses ∧ newk.response > k2.response)) ∧
        suppressStep overlap keypoints newk = keypoints.set i newk ∧
        (∀ j, j ≠ i → (suppressStep overlap keypoints newk)[j]? = keypoints[j]?) := by
    intro h
    obtain ⟨i, k, hik, hc, hr, hfirst, hscan⟩ := suppressScan_replace overlap newk keypoints h
    have hstep : suppressStep overlap keypoints newk = keypoints.set i newk := by
      simp [suppressStep, hscan]
    refine ⟨i, k, hik, hc, hr, hfirst, hstep, ?_⟩
    intro j hj
    rw [hstep, List.getElem?_set_ne (Ne.symm hj)]
  have hkeep : (∃ k ∈ keypoints, overlap newk k > crosses) →
      (∀ k ∈ keypoints, overlap newk k > crosses → newk.response ≤ k.response) →
      suppressStep overlap keypoints newk = keypoints := by
    intro hex h
    have hscan := suppressScan_keep overlap newk keypoints
      (fun k hk hp => absurd (h k hk hp.1) (not_le.2 hp.2))
    simp [suppressStep, hscan, hex]
  refine ⟨?_, ?_⟩
  · intro h
    have hscan := suppressScan_keep overlap newk keypoints (fun k hk hp => h k hk hp.1)
    have hno : ¬ ∃ k ∈ keypoints, overlap newk k > crosses := fun ⟨k, hk, hc⟩ => h k hk hc
    simp [suppressStep, hscan, hno]
  · intro hex
    refine ⟨?_, hreplace, hkeep hex⟩
    by_cases hrep : ∃ k ∈ keypoints, overlap newk k > crosses ∧ newk.response > k.response
    · obtain ⟨i, _, _, _, _, _, hstep, _⟩ := hreplace hrep
      rw [hstep, List.length_set]
    · rw [hkeep hex]
      intro k hk hc
      exact not_lt.1 (fun hr => hrep ⟨k, hk, hc, hr⟩)

/-- C10, instance: a candidate of response 102 crossing an accepted keypoint of
response 101 takes its place, the other accepted keypoint stays. -/
theorem suppressStep_cases_witness :
    (∃ k ∈ [(⟨⟨0, 0⟩, 6, 101⟩ : KeyPoint), ⟨⟨20, 0⟩, 6, 150⟩],
      diskOverlap ⟨⟨5, 1⟩, 6, 102⟩ k > crosses) ∧
    (suppressStep diskOverlap [⟨⟨0, 0⟩, 6, 101⟩, ⟨⟨20, 0⟩, 6, 150⟩] ⟨⟨5, 1⟩, 6, 102⟩).length = 2 :=
  ⟨⟨⟨⟨0, 0⟩, 6, 101⟩, by simp, by with_unfolding_all decide⟩,
   ((suppressStep_cases diskOverlap [⟨⟨0, 0⟩, 6, 101⟩, ⟨⟨20, 0⟩, 6, 150⟩] ⟨⟨5, 1⟩, 6, 102⟩).2
      ⟨⟨⟨0, 0⟩, 6, 101⟩, by simp, by with_unfolding_all decide⟩).1⟩

/-! ## The Harris suppression loop as a whole -/

theorem harrisRow_eq_foldl (overlap : KeyPoint → KeyPoint → ℚ) (i j : Nat) (row : List ℚ)
    (keypoints : List KeyPoint) :
    harrisRow overlap i j row keypoints
      = (rowCandidates i j row).foldl (suppressStep overlap) keypoints := by
  induction row generalizing j keypoints with
  | nil => rfl
  | cons v row ih =>
    simp only [harrisRow, rowCandidates, List.foldl_append, ih, harrisPixel]
    split_ifs <;> rfl

theorem harrisRows_eq_foldl (overlap : KeyPoint → KeyPoint → ℚ) (i : Nat)
    (rows : List (List ℚ)) (keypoints : List KeyPoint) :
    harrisRows overlap i rows keypoints
      = (mapCandidates i rows).foldl (suppressStep overlap) keypoints := by
  induction rows generalizing i keypoints with
  | nil => rfl
  | cons row rows ih =>
    simp only [harrisRows, mapCandidates, List.foldl_append, ih, harrisRow_eq_foldl]

theorem replaces_eq_false_iff (overlap : KeyPoint → KeyPoint → ℚ) (keypoints : List KeyPoint)
    (newk : KeyPoint) :
    replaces overlap keypoints newk = false ↔
      ∀ k ∈ keypoints, ¬ (overlap newk k > crosses ∧ newk.response > k.response) := by
  simp [replaces]

theorem suppressStep_keeps_pairwise (overlap : KeyPoint → KeyPoint → ℚ)
    (hsym : ∀ a b, overlap a b = overlap b a) (keypoints : List KeyPoint) (newk : KeyPoint)
    (hpw : keypoints.Pairwise (fun a b => overlap a b ≤ crosses))
    (hno : replaces overlap keypoints newk = false) :
    (suppressStep overlap keypoints newk).Pairwise (fun a b => overlap a b ≤ crosses) := by
  have hscan := suppressScan_keep overlap newk keypoints
    ((replaces_eq_false_iff overlap keypoints newk).1 hno)
  by_cases hex : ∃ k ∈ keypoints, overlap newk k > crosses
  · simpa [suppressStep, hscan, hex] using hpw
  · have hstep : suppressStep overlap keypoints newk = keypoints ++ [newk] := by
      simp [suppressStep, hscan, hex]
    rw [hstep, List.pairwise_append]
    refine ⟨hpw, List.pairwise_singleton _ _, ?_⟩
    intro a ha b hb
    have hb2 : b = newk := by simpa using hb
    subst hb2
    rw [hsym]
    exact not_lt.1 (fun hc => hex ⟨a, ha, hc⟩)

theorem suppressScan_mem (overlap : KeyPoint → KeyPoint → ℚ) (newk : KeyPoint)
    (keypoints : List KeyPoint) :
    ∀ x ∈ (suppressScan overlap newk keypoints).1, x = newk ∨ x ∈ keypoints := by
  induction keypoints with
  | nil => simp [suppressScan]
  | cons it rest ih =>
    intro x hx
    simp only [suppressScan] at hx
    split_ifs at hx
    · rcases List.mem_cons.1 hx with h | h
      · exact Or.inl h
      · exact Or.inr (List.mem_cons_of_mem _ h)
    · rcases List.mem_cons.1 hx with h | h
      · exact Or.inr (h ▸ List.mem_cons_self _ _)
      · exact (ih x h).imp id (List.mem_cons_of_mem _)
    · rcases List.mem_cons.1 hx with h | h
      · exact Or.inr (h ▸ List.mem_cons_self _ _)
      · exact (ih x h).imp id (List.mem_cons_of_mem _)

theorem suppressStep_mem (overlap : KeyPoint → KeyPoint → ℚ) (keypoints : List KeyPoint)
    (newk : KeyPoint) :
    ∀ x ∈ suppressStep overlap keypoints newk, x = newk ∨ x ∈ keypoints := by
  intro x hx
  simp only [suppressStep] at hx
  split_ifs at hx
  · rcases List.mem_append.1 hx with h | h
    · exact suppressScan_mem overlap newk keypoints x h
    · exact Or.inl (by simpa using h)
  · exact suppressScan_mem overlap newk keypoints x hx

theorem foldl_suppressStep_mem (overlap : KeyPoint → KeyPoint → ℚ)
    (cands keypoints : List KeyPoint) :
    ∀ x ∈ cands.foldl (suppressStep overlap) keypoints, x ∈ keypoints ∨ x ∈ cands := by
  induction cands generalizing keypoints with
  | nil => exact fun x hx => Or.inl hx
  | cons c cands ih =>
    intro x hx
    rcases ih _ x hx with h | h
    · rcases suppressStep_mem overlap keypoints c x h with h2 | h2
      · exact Or.inr (h2 ▸ List.mem_cons_self _ _)
      · exact Or.inl h2
    · exact Or.inr (List.mem_cons_of_mem _ h)

theorem crossedCount_zero (overlap : KeyPoint → KeyPoint → ℚ) (keypoints : List KeyPoint)
    (newk : KeyPoint) (h : crossedCount overlap keypoints newk = 0) :
    ∀ k ∈ keypoints, ¬ overlap newk k > crosses := by
  intro k hk
  have := (List.countP_eq_zero.1 h) k hk
  simpa using this

theorem suppressScan_pairwise (overlap : KeyPoint → KeyPoint → ℚ)
    (hsym : ∀ a b, overlap a b = overlap b a) (newk : KeyPoint) (keypoints : List KeyPoint)
    (hpw : keypoints.Pairwise (fun a b => overlap a b ≤ crosses))
    (hcount : crossedCount overlap keypoints newk ≤ 1) :
    (suppressScan overlap newk keypoints).1.Pairwise (fun a b => overlap a b ≤ crosses) := by
  induction keypoints with
  | nil => simp [suppressScan]
  | cons it rest ih =>
    obtain ⟨hit, hrest⟩ := List.pairwise_cons.1 hpw
    by_cases hc : overlap newk it > crosses
    · have hzero : crossedCount overlap rest newk = 0 := by
        have h1 : crossedCount overlap (it :: rest) newk
            = crossedCount overlap rest newk + 1 := by
          simp [crossedCount, List.countP_cons, hc]
        omega
      have hnone := crossedCount_zero overlap rest newk hzero
      by_cases hr : newk.response > it.response
      · simp only [suppressScan, hc, hr, if_true]
        exact List.pairwise_cons.2 ⟨fun k hk => not_lt.1 (hnone k hk), hrest⟩
      · have hkeep := suppressScan_keep overlap newk rest (fun k hk hp => hnone k hk hp.1)
        simp only [suppressScan, hc, hr, if_true, if_false, hkeep]
        exact hpw
    · have hcount2 : crossedCount overlap rest newk ≤ 1 := by
        have h1 : crossedCount overlap (it :: rest) newk = crossedCount overlap rest newk := by
          simp [crossedCount, List.countP_cons, hc]
        omega
      simp only [suppressScan, hc, if_false]
      refine List.pairwise_cons.2 ⟨?_, ih hrest hcount2⟩
      intro x hx
      rcases suppressScan_mem overlap newk rest x hx with h | h
      · rw [h, hsym]
        exact not_lt.1 hc
      · exact hit x h

theorem suppressStep_isolated_pairwise (overlap : KeyPoint → KeyPoint → ℚ)
    (hsym : ∀ a b, overlap a b = overlap b a) (keypoints : List KeyPoint) (newk : KeyPoint)
    (hpw : keypoints.Pairwise (fun a b => overlap a b ≤ crosses))
    (hiso : replaces overlap keypoints newk = false ∨ crossedCount overlap keypoints newk ≤ 1) :
    (suppressStep overlap keypoints newk).Pairwise (fun a b => overlap a b ≤ crosses) := by
  cases hrep : replaces overlap keypoints newk with
  | false => exact suppressStep_keeps_pairwise overlap hsym keypoints newk hpw hrep
  | true =>
    have hcount : crossedCount overlap keypoints newk ≤ 1 := by
      rcases hiso with h | h
      · rw [hrep] at h; cases h
      · exact h
    have hex : ∃ k ∈ keypoints, overlap newk k > crosses ∧ newk.response > k.response := by
      simpa [replaces] using hrep
    obtain ⟨i, _, _, _, _, _, hscan⟩ := suppressScan_replace overlap newk keypoints hex
    have hstep : suppressStep overlap keypoints newk
        = (suppressScan overlap newk keypoints).1 := by
      simp [suppressStep, hscan]
    rw [hstep]
    exact suppressScan_pairwise overlap hsym newk keypoints hpw hcount

theorem foldl_suppressStep_pairwise (overlap : KeyPoint → KeyPoint → ℚ)
    (hsym : ∀ a b, overlap a b = overlap b a) (cands keypoints : List KeyPoint)
    (hpw : keypoints.Pairwise (fun a b => overlap a b ≤ crosses))
    (hiso : isolatedOverwrites overlap keypoints cands = true) :
    (cands.foldl (suppressStep overlap) keypoints).Pairwise
      (fun a b => overlap a b ≤ crosses) := by
  induction cands generalizing keypoints with
  | nil => exact hpw
  | cons newk cands ih =>
    simp only [isolatedOverwrites, Bool.and_eq_true, Bool.or_eq_true, Bool.not_eq_true',
      decide_eq_true_eq] at hiso
    exact ih _ (suppressStep_isolated_pairwise overlap hsym keypoints newk hpw hiso.1) hiso.2

theorem suppressStep_member_fixed (overlap : KeyPoint → KeyPoint → ℚ)
    (hsym : ∀ a b, overlap a b = overlap b a) (keypoints : List KeyPoint)
    (hpw : keypoints.Pairwise (fun a b => overlap a b ≤ crosses))
    (newk : KeyPoint) (hmem : newk ∈ keypoints) (hself : overlap newk newk > crosses) :
    suppressStep overlap keypoints newk = keypoints := by
  have hsymR : Symmetric (fun a b : KeyPoint => overlap a b ≤ crosses) := by
    intro a b hab
    rw [hsym]; exact hab
  have hkeep : ∀ k ∈ keypoints, ¬ (overlap newk k > crosses ∧ newk.response > k.response) := by
    intro k hk hp
    by_cases heq : newk = k
    · subst heq
      exact lt_irrefl _ hp.2
    · exact absurd (hpw.forall hsymR hmem hk heq) (not_le.2 hp.1)
  have hex : ∃ k ∈ keypoints, overlap newk k > crosses := ⟨newk, hmem, hself⟩
  simp [suppressStep, suppressScan_keep overlap newk keypoints hkeep, hex]

theorem foldl_suppressStep_members_fixed (overlap : KeyPoint → KeyPoint → ℚ)
    (hsym : ∀ a b, overlap a b = overlap b a) (keypoints : List KeyPoint)
    (hpw : keypoints.Pairwise (fun a b => overlap a b ≤ crosses))
    (cands : List KeyPoint)
    (hsub : ∀ c ∈ cands, c ∈ keypoints ∧ overlap c c > crosses) :
    cands.foldl (suppressStep overlap) keypoints = keypoints := by
  induction cands with
  | nil => rfl
  | cons c cands ih =>
    obtain ⟨hmem, hself⟩ := hsub c (List.mem_cons_self _ _)
    rw [List.foldl_cons, suppressStep_member_fixed overlap hsym keypoints hpw c hmem hself]
    exact ih (fun c2 hc2 => hsub c2 (List.mem_cons_of_mem _ hc2))

theorem diskOverlap_symm (a b : KeyPoint) : diskOverlap a b = diskOverlap b a := by
  unfold diskOverlap
  have hx : (a.pt.x - b.pt.x) ^ 2 = (b.pt.x - a.pt.x) ^ 2 := by ring
  have hy : (a.pt.y - b.pt.y) ^ 2 = (b.pt.y - a.pt.y) ^ 2 := by ring
  rw [hx, hy, add_comm a.size]

/-- C8, as stated, fails. First, with the symmetric measure `diskOverlap`, on a
map with three responses above 100, at (row 0, column 0), (row 0, column 10)
and (row 1, column 5), the third candidate overwrites the first and stays next
to the second, which it overlaps; running the suppression again on the result
changes it. Second, for the symmetric measure that is 0 everywhere, a map with
one response above 100 gives a one-element list, without overlapping pair, and
running the suppression again on it appends the keypoint a second time. -/
theorem harrisSuppression_overlap_counterexample :
    (∀ a b, diskOverlap a b = diskOverlap b a) ∧
    harrisSuppression diskOverlap [[101, 0, 0, 0, 0, 0, 0, 0, 0, 0, 150], [0, 0, 0, 0, 0, 102]] []
      = [⟨⟨5, 1⟩, 6, 102⟩, ⟨⟨10, 0⟩, 6, 150⟩] ∧
    diskOverlap ⟨⟨5, 1⟩, 6, 102⟩ ⟨⟨10, 0⟩, 6, 150⟩ > crosses ∧
    ([⟨⟨5, 1⟩, 6, 102⟩, ⟨⟨10, 0⟩, 6, 150⟩].foldl (suppressStep diskOverlap)
        [⟨⟨5, 1⟩, 6, 102⟩, ⟨⟨10, 0⟩, 6, 150⟩])
      = [⟨⟨10, 0⟩, 6, 150⟩, ⟨⟨10, 0⟩, 6, 150⟩] ∧
    harrisSuppression (fun _ _ => 0) [[101]] [] = [⟨⟨0, 0⟩, 6, 101⟩] ∧
    ([⟨⟨0, 0⟩, 6, 101⟩].foldl (suppressStep (fun _ _ => 0)) [⟨⟨0, 0⟩, 6, 101⟩])
      = [⟨⟨0, 0⟩, 6, 101⟩, ⟨⟨0, 0⟩, 6, 101⟩] := by
  refine ⟨diskOverlap_symm, ?_, ?_, ?_, ?_, ?_⟩
  · with_unfolding_all rfl
  · with_unfolding_all decide
  · with_unfolding_all rfl
  · with_unfolding_all rfl
  · with_unfolding_all rfl

/-- C8, amended: for a symmetric overlap measure and an empty initial list, if
every candidate of the scan that overwrites an accepted keypoint crosses no
other accepted keypoint at that moment, the final list has no two entries at
different positions whose overlap exceeds the threshold; if moreover every
candidate of the scan overlaps itself above the threshold, running the
suppression again with the accepted keypoints as candidates leaves the list
unchanged. -/
theorem harrisSuppression_nonredundant (overlap : KeyPoint → KeyPoint → ℚ)
    (dst_norm : List (List ℚ))
    (hsym : ∀ a b, overlap a b = overlap b a)
    (hiso : isolatedOverwrites overlap [] (mapCandidates 0 dst_norm) = true) :
    (harrisSuppression overlap dst_norm []).Pairwise (fun a b => overlap a b ≤ crosses) ∧
    ((∀ k ∈ mapCandidates 0 dst_norm, overlap k k > crosses) →
      (harrisSuppression overlap dst_norm []).foldl (suppressStep overlap)
          (harrisSuppression overlap dst_norm [])
        = harrisSuppression overlap dst_norm []) := by
  have hfold : harrisSuppression overlap dst_norm []
      = (mapCandidates 0 dst_norm).foldl (suppressStep overlap) [] := by
    rw [harrisSuppression, harrisRows_eq_foldl]
  have hpw : (harrisSuppression overlap dst_norm []).Pairwise
      (fun a b => overlap a b ≤ crosses) := by
    rw [hfold]
    exact foldl_suppressStep_pairwise overlap hsym _ [] List.Pairwise.nil hiso
  refine ⟨hpw, fun hself => ?_⟩
  apply foldl_suppressStep_members_fixed overlap hsym _ hpw
  intro c hc
  refine ⟨hc, hself c ?_⟩
  rw [hfold] at hc
  rcases foldl_suppressStep_mem overlap _ [] c hc with h | h
  · cases h
  · exact h

/-- C8, amended, instance: the candidate at column 1 (response 102) overwrites
the keypoint at column 0 (response 101), crossing nothing else; the candidate
at column 10 crosses nothing and is appended. The result has no overlapping
pair and a second pass leaves it unchanged. -/
theorem harrisSuppression_nonredundant_witness :
    (∀ a b, diskOverlap a b = diskOverlap b a) ∧
    isolatedOverwrites diskOverlap []
      (mapCandidates 0 [[101, 102, 0, 0, 0, 0, 0, 0, 0, 0, 150]]) = true ∧
    (∀ k ∈ mapCandidates 0 [[101, 102, 0, 0, 0, 0, 0, 0, 0, 0, 150]],
      diskOverlap k k > crosses) ∧
    harrisSuppression diskOverlap [[101, 102, 0, 0, 0, 0, 0, 0, 0, 0, 150]] []
      = [⟨⟨1, 0⟩, 6, 102⟩, ⟨⟨10, 0⟩, 6, 150⟩] ∧
    (harrisSuppression diskOverlap [[101, 102, 0, 0, 0, 0, 0, 0, 0, 0, 150]] []).Pairwise
      (fun a b => diskOverlap a b ≤ crosses) ∧
    (harrisSuppression diskOverlap [[101, 102, 0, 0, 0, 0, 0, 0, 0, 0, 150]] []).foldl
        (suppressStep diskOverlap)
        (harrisSuppression diskOverlap [[101, 102, 0, 0, 0, 0, 0, 0, 0, 0, 150]] [])
      = harrisSuppression diskOverlap [[101, 102, 0, 0, 0, 0, 0, 0, 0, 0, 150]] [] :=
  ⟨diskOverlap_symm, by with_unfolding_all rfl, by with_unfolding_all decide,
   by with_unfolding_all rfl,
   (harrisSuppression_nonredundant diskOverlap [[101, 102, 0, 0, 0, 0, 0, 0, 0, 0, 150]]
      diskOverlap_symm (by with_unfolding_all rfl)).1,
   (harrisSuppression_nonredundant diskOverlap [[101, 102, 0, 0, 0, 0, 0, 0, 0, 0, 150]]
      diskOverlap_symm (by with_unfolding_all rfl)).2 (by with_unfolding_all decide)⟩

/-! ## Orientation of the stored matches -/

theorem configureMatcher_rows (cv : MatcherFactory) (descSource descRef : Mat)
    (matcherType : String) :
    (configureMatcher cv descSource descRef matcherType).2.1.rows = descSource.rows ∧
    (configureMatcher cv descSource descRef matcherType).2.2.rows = descRef.rows := by
  unfold configureMatcher
  split_ifs <;> exact ⟨rfl, rfl⟩

theorem configureMatcher_matcher (cv : MatcherFactory) (descSource descRef : Mat)
    (matcherType : String) (m : DescriptorMatcher)
    (h : (configureMatcher cv descSource descRef matcherType).1 = some m) :
    m = cv.bruteForceHamming ∨ m = cv.flannBased := by
  unfold configureMatcher at h
  split_ifs at h <;> simp at h
  · exact Or.inl h.symm
  · exact Or.inr h.symm
  · exact Or.inr h.symm

theorem configureMatcher_known (cv : MatcherFactory) (descSource descRef : Mat)
    (matcherType : String) (h : matcherType = "MAT_BF" ∨ matcherType = "MAT_FLANN") :
    ∃ m, (configureMatcher cv descSource descRef matcherType).1 = some m := by
  unfold configureMatcher
  rcases h with h | h
  · exact ⟨cv.bruteForceHamming, by simp [h]⟩
  · refine ⟨cv.flannBased, ?_⟩
    subst h
    rw [if_neg (by decide), if_pos rfl]
    split_ifs <;> rfl

theorem ratioTestLoop_mem (k_matches : List (List DMatch)) (matches_ out : List DMatch)
    (h : ratioTestLoop k_matches matches_ = .ok out) :
    ∀ d ∈ out, d ∈ matches_ ∨ ∃ it ∈ k_matches, d ∈ it := by
  induction k_matches generalizing matches_ with
  | nil =>
    simp only [ratioTestLoop, Except.ok.injEq] at h
    subst h
    exact fun d hd => Or.inl hd
  | cons it rest ih =>
    match it with
    | [] => simp [ratioTestLoop, ratioTestIter_short] at h
    | [_] => simp [ratioTestLoop, ratioTestIter_short] at h
    | m0 :: m1 :: more =>
      simp only [ratioTestLoop, ratioTestIter_two] at h
      intro d hd
      rcases ih _ h d hd with hin | ⟨it2, hit2, hdit⟩
      · split_ifs at hin
        · rcases List.mem_append.1 hin with hm | hm
          · exact Or.inl hm
          · exact Or.inr ⟨_, List.mem_cons_self _ _, by
              have : d = m0 := by simpa using hm
              simp [this]⟩
        · exact Or.inl hin
      · exact Or.inr ⟨it2, List.mem_cons_of_mem _ hit2, hdit⟩

theorem ratioTestLoop_returns (k_matches : List (List DMatch)) (matches_ : List DMatch)
    (h : ∀ it ∈ k_matches, 2 ≤ it.length) :
    ∃ out, ratioTestLoop k_matches matches_ = .ok out := by
  induction k_matches generalizing matches_ with
  | nil => exact ⟨matches_, rfl⟩
  | cons it rest ih =>
    have hit := h it (List.mem_cons_self _ _)
    match it, hit with
    | m0 :: m1 :: more, _ =>
      simp only [ratioTestLoop, ratioTestIter_two]
      exact ih _ (fun it2 hit2 => h it2 (List.mem_cons_of_mem _ hit2))

theorem selectKnn_mem (m : DescriptorMatcher) (descSource descRef : Mat)
    (matches_ out : List DMatch) (h : selectKnn m descSource descRef matches_ = .ok out) :
    ∃ ks, m.knnMatch descSource descRef 2 = .ok ks ∧
      ∀ d ∈ out, d ∈ matches_ ∨ ∃ it ∈ ks, d ∈ it := by
  unfold selectKnn at h
  cases hk : m.knnMatch descSource descRef 2 with
  | error e => simp [hk] at h
  | ok ks =>
    simp only [hk] at h
    cases hloop : ratioTestLoop ks matches_ with
    | error e => simp [hloop] at h
    | ok sel =>
      simp only [hloop] at h
      split_ifs at h
      simp only [Except.ok.injEq] at h
      subst h
      exact ⟨ks, rfl, ratioTestLoop_mem ks matches_ sel hloop⟩

theorem selectKnn_returns (m : DescriptorMatcher) (descSource descRef : Mat)
    (matches_ : List DMatch) (hret : MatcherReturns m)
    (hq : 1 ≤ descSource.rows) (ht : 2 ≤ descRef.rows) :
    ∃ out, selectKnn m descSource descRef matches_ = .ok out := by
  obtain ⟨ks, hks, hne, htwo⟩ := hret.2 descSource descRef hq ht
  obtain ⟨sel, hsel⟩ := ratioTestLoop_returns ks matches_ htwo
  have hlen : ¬ ks.length = 0 := fun h0 => hne (List.length_eq_zero.1 h0)
  exact ⟨sel, by simp [selectKnn, hks, hsel, hlen]⟩

theorem matchDescriptors_indices (cv : MatcherFactory) (kPtsSource kPtsRef : List KeyPoint)
    (descSource descRef : Mat) (matches_ : List DMatch)
    (descriptorType matcherType selectorType : String) (out : MatchOut)
    (hbf : IndexContract cv.bruteForceHamming) (hfl : IndexContract cv.flannBased)
    (h : matchDescriptors cv kPtsSource kPtsRef descSource descRef matches_
      descriptorType matcherType selectorType = .ok out) :
    out.descSource.rows = descSource.rows ∧ out.descRef.rows = descRef.rows ∧
    ∀ d ∈ out.matches_, d ∈ matches_ ∨
      (validIndex d.queryIdx descSource.rows ∧ validIndex d.trainIdx descRef.rows) := by
  obtain ⟨hrs, hrr⟩ := configureMatcher_rows cv descSource descRef matcherType
  have hcontract : ∀ m, (configureMatcher cv descSource descRef matcherType).1 = some m →
      IndexContract m := by
    intro m hm
    rcases configureMatcher_matcher cv descSource descRef matcherType m hm with h1 | h1
    · exact h1 ▸ hbf
    · exact h1 ▸ hfl
  unfold matchDescriptors at h
  simp only at h
  split_ifs at h with hnn hknn
  · cases hm : (configureMatcher cv descSource descRef matcherType).1 with
    | none => simp [hm] at h
    | some m =>
      simp only [hm] at h
      cases hmatch : m.match_ (configureMatcher cv descSource descRef matcherType).2.1
          (configureMatcher cv descSource descRef matcherType).2.2 with
      | error e => simp [hmatch] at h
      | ok ms =>
        simp only [hmatch, Except.ok.injEq] at h
        subst h
        refine ⟨hrs, hrr, fun d hd => Or.inr ?_⟩
        have := (hcontract m hm).1 _ _ ms hmatch d hd
        rw [hrs, hrr] at this
        exact ⟨⟨this.1, this.2.1⟩, ⟨this.2.2.1, this.2.2.2⟩⟩
  · cases hm : (configureMatcher cv descSource descRef matcherType).1 with
    | none => simp [hm] at h
    | some m =>
      simp only [hm] at h
      cases hsel : selectKnn m (configureMatcher cv descSource descRef matcherType).2.1
          (configureMatcher cv descSource descRef matcherType).2.2 matches_ with
      | error e => simp [hsel] at h
      | ok sel =>
        simp only [hsel, Except.ok.injEq] at h
        subst h
        obtain ⟨ks, hks, hmem⟩ := selectKnn_mem _ _ _ _ _ hsel
        refine ⟨hrs, hrr, fun d hd => ?_⟩
        rcases hmem d hd with hin | ⟨it, hit, hdit⟩
        · exact Or.inl hin
        · have := (hcontract m hm).2 _ _ 2 ks hks it hit d hdit
          rw [hrs, hrr] at this
          exact Or.inr ⟨⟨this.1, this.2.1⟩, ⟨this.2.2.1, this.2.2.2⟩⟩
  · simp only [Except.ok.injEq] at h
    subst h
    exact ⟨hrs, hrr, fun d hd => Or.inl hd⟩

theorem gridMatcher_contract : IndexContract gridMatcher := by
  constructor
  · intro q t ms hms d hd
    simp only [gridMatcher, Except.ok.injEq] at hms
    subst hms
    split_ifs at hd with h0
    · cases hd
    · obtain ⟨i, hi, rfl⟩ := List.mem_map.1 hd
      have hi2 := List.mem_range.1 hi
      refine ⟨by simp, by simpa using hi2, le_refl _, ?_⟩
      simp only [Nat.cast_pos]
      omega
  · intro q t k ks hks it hit d hd
    simp only [gridMatcher, Except.ok.injEq] at hks
    subst hks
    obtain ⟨i, hi, rfl⟩ := List.mem_map.1 hit
    obtain ⟨j, hj, rfl⟩ := List.mem_map.1 hd
    have hi2 := List.mem_range.1 hi
    have hj2 := List.mem_range.1 hj
    refine ⟨by simp, by simpa using hi2, by simp, ?_⟩
    simp only [Nat.cast_lt]
    omega

theorem gridMatcher_returns : MatcherReturns gridMatcher := by
  constructor
  · intro q t
    exact ⟨_, rfl⟩
  · intro q t hq ht
    refine ⟨_, rfl, ?_, ?_⟩
    · intro hnil
      have hlen := congrArg List.length hnil
      simp only [List.length_map, List.length_range, List.length_nil] at hlen
      omega
    · intro it hit
      obtain ⟨i, _, rfl⟩ := List.mem_map.1 hit
      simp only [List.length_map, List.length_range]
      omega

/-- C5, as stated, fails: with a matcher that keeps to the index assumption, a
previous frame of three keypoints and descriptors and a current frame of two,
the match list stored in the current frame contains a match with
`queryIdx = 2`, which is not an index into the current frame's two
descriptors or keypoints. -/
theorem stored_match_index_counterexample :
    IndexContract gridMatcher ∧
    ∃ p c, matchFrames ⟨gridMatcher, gridMatcher⟩ "MAT_FLANN" "SEL_KNN"
        (stubFrame 3) (stubFrame 2) = .ok (p, c) ∧
      c.kptMatches = [⟨0, 0, 1⟩, ⟨1, 0, 1⟩, ⟨2, 0, 1⟩] ∧
      ∃ d ∈ c.kptMatches, ¬ validIndex d.queryIdx (stubFrame 2).descriptors.rows ∧
        ¬ validIndex d.queryIdx (stubFrame 2).keypoints.length := by
  refine ⟨gridMatcher_contract,
    ⟨(), (stubFrame 3).keypoints, ⟨CV_32F, [[1], [1], [1]]⟩, []⟩,
    ⟨(), (stubFrame 2).keypoints, ⟨CV_32F, [[1], [1]]⟩, [⟨0, 0, 1⟩, ⟨1, 0, 1⟩, ⟨2, 0, 1⟩]⟩,
    by with_unfolding_all rfl, rfl, ⟨2, 0, 1⟩, by simp, ?_, ?_⟩
  · intro h
    have h2 := h.2
    simp [stubFrame, Mat.rows] at h2
  · intro h
    have h2 := h.2
    simp [stubFrame] at h2

/-- C5, amended: when the two matchers keep to the index assumption, every
match stored in the current frame by the matching stage has a `queryIdx` that
is a valid index into the previous frame's descriptors and a `trainIdx` that is
a valid index into the current frame's descriptors, and likewise into their
keypoints when each frame has as many keypoints as descriptors; the stage
leaves the keypoints and the descriptor counts of both frames as they were.
With a known matcher tag and matchers that raise no exception the stage
returns for `SEL_NN`, and for `SEL_KNN` when the previous frame has at least
one descriptor and the current frame at least two. -/
theorem matchFrames_orientation {Image : Type} (cv : MatcherFactory)
    (matcherType selectorType : String) (prev cur : DataFrame Image)
    (hbf : IndexContract cv.bruteForceHamming) (hfl : IndexContract cv.flannBased) :
    (∀ p c, matchFrames cv matcherType selectorType prev cur = .ok (p, c) →
      p.keypoints = prev.keypoints ∧ c.keypoints = cur.keypoints ∧
      p.descriptors.rows = prev.descriptors.rows ∧
      c.descriptors.rows = cur.descriptors.rows ∧
      (∀ d ∈ c.kptMatches, validIndex d.queryIdx prev.descriptors.rows ∧
        validIndex d.trainIdx cur.descriptors.rows) ∧
      (prev.keypoints.length = prev.descriptors.rows →
        cur.keypoints.length = cur.descriptors.rows →
        ∀ d ∈ c.kptMatches, validIndex d.queryIdx prev.keypoints.length ∧
          validIndex d.trainIdx cur.keypoints.length)) ∧
    ((matcherType = "MAT_BF" ∨ matcherType = "MAT_FLANN") →
      (selectorType = "SEL_NN" ∨
        (selectorType = "SEL_KNN" ∧ 1 ≤ prev.descriptors.rows ∧ 2 ≤ cur.descriptors.rows)) →
      MatcherReturns cv.bruteForceHamming → MatcherReturns cv.flannBased →
      ∃ p c, matchFrames cv matcherType selectorType prev cur = .ok (p, c)) := by
  constructor
  · intro p c h
    unfold matchFrames at h
    cases hmd : matchDescriptors cv prev.keypoints cur.keypoints prev.descriptors
        cur.descriptors [] "DES_BINARY" matcherType selectorType with
    | error e => simp [hmd] at h
    | ok out =>
      simp only [hmd, Except.ok.injEq, Prod.mk.injEq] at h
      obtain ⟨hp, hc⟩ := h
      subst hp hc
      obtain ⟨h1, h2, h3⟩ := matchDescriptors_indices _ _ _ _ _ _ _ _ _ _ hbf hfl hmd
      have hvalid : ∀ d ∈ out.matches_, validIndex d.queryIdx prev.descriptors.rows ∧
          validIndex d.trainIdx cur.descriptors.rows := by
        intro d hd
        rcases h3 d hd with hnil | hv
        · cases hnil
        · exact hv
      refine ⟨rfl, rfl, h1, h2, hvalid, ?_⟩
      intro hpk hck d hd
      rw [hpk, hck]
      exact hvalid d hd
  · intro hm hs hrbf hrfl
    obtain ⟨m, hcfg⟩ := configureMatcher_known cv prev.descriptors cur.descriptors matcherType hm
    have hret : MatcherReturns m := by
      rcases configureMatcher_matcher cv _ _ _ m hcfg with h1 | h1
      · exact h1 ▸ hrbf
      · exact h1 ▸ hrfl
    have hout : ∃ out, matchDescriptors cv prev.keypoints cur.keypoints prev.descriptors
        cur.descriptors [] "DES_BINARY" matcherType selectorType = .ok out := by
      unfold matchDescriptors
      rcases hs with hs | ⟨hs, hq, ht⟩
      · obtain ⟨ms, hms⟩ := hret.1
          (configureMatcher cv prev.descriptors cur.descriptors matcherType).2.1
          (configureMatcher cv prev.descriptors cur.descriptors matcherType).2.2
        simp [hs, hcfg, hms]
      · obtain ⟨sel, hsel⟩ := selectKnn_returns m
          (configureMatcher cv prev.descriptors cur.descriptors matcherType).2.1
          (configureMatcher cv prev.descriptors cur.descriptors matcherType).2.2 [] hret
          (by rw [(configureMatcher_rows cv _ _ _).1]; exact hq)
          (by rw [(configureMatcher_rows cv _ _ _).2]; exact ht)
        subst hs
        simp [hcfg, hsel]
    obtain ⟨out, hout⟩ := hout
    refine ⟨{ prev with descriptors := out.descSource },
      { cur with descriptors := out.descRef, kptMatches := out.matches_ }, ?_⟩
    simp only [matchFrames, hout]

/-- C5, amended, instance: three previous and two current keypoints and
descriptors; the stage returns, and the stored matches index the previous
frame by `queryIdx` and the current frame by `trainIdx`. -/
theorem matchFrames_orientation_witness :
    IndexContract gridMatcher ∧
    (∃ p c, matchFrames ⟨gridMatcher, gridMatcher⟩ "MAT_FLANN" "SEL_KNN"
      (stubFrame 3) (stubFrame 2) = .ok (p, c)) ∧
    (∀ p c, matchFrames ⟨gridMatcher, gridMatcher⟩ "MAT_FLANN" "SEL_KNN"
      (stubFrame 3) (stubFrame 2) = .ok (p, c) →
      ∀ d ∈ c.kptMatches, validIndex d.queryIdx (stubFrame 3).descriptors.rows ∧
        validIndex d.trainIdx (stubFrame 2).descriptors.rows) :=
  ⟨gridMatcher_contract,
   (matchFrames_orientation ⟨gridMatcher, gridMatcher⟩ "MAT_FLANN" "SEL_KNN"
      (stubFrame 3) (stubFrame 2) gridMatcher_contract gridMatcher_contract).2
      (Or.inr rfl) (Or.inr ⟨rfl, by decide, by decide⟩) gridMatcher_returns gridMatcher_returns,
   fun p c h => ((matchFrames_orientation ⟨gridMatcher, gridMatcher⟩ "MAT_FLANN" "SEL_KNN"
      (stubFrame 3) (stubFrame 2) gridMatcher_contract gridMatcher_contract).1 p c h).2.2.2.2.1⟩

/-! ## Tag dispatch -/

/-- C9, as stated, fails: for the tag `FOO`, which is in none of the tag sets,
`detKeypointsModern` returns the keypoint of the Shi-Tomasi corner search,
`descKeypoints` returns the descriptors of the FREAK extractor, and
`matchDescriptors` (selector `FOO`) returns the empty match list it was given;
none of them ends with an error. -/
theorem unknown_tag_counterexample :
    detKeypointsModern stubCV [] () "FOO" = .ok ((), [⟨⟨1, 1⟩, 4, 0⟩]) ∧
    descKeypoints stubCV [] () "FOO" = .ok ([], ⟨CV_32F, []⟩) ∧
    matchDescriptors ⟨gridMatcher, gridMatcher⟩ [] [] ⟨0, [[1]]⟩ ⟨0, [[1]]⟩ []
      "DES_BINARY" "MAT_BF" "FOO" = .ok ⟨⟨0, [[1]]⟩, ⟨0, [[1]]⟩, []⟩ := by
  refine ⟨?_, ?_, ?_⟩ <;> rfl

/-- C9, amended: no dispatching operation checks its tag against the set of
known tags. For every tag other than BRISK, SIFT, FAST, ORB, AKAZE and HARRIS,
`detKeypointsModern` does what it does for SHITOMASI: after the grayscale
conversion it runs `detKeypointsShiTomasi`, and when the conversion and the
corner search raise no exception it returns the given keypoints followed by
one keypoint of size 4 per corner. For every tag other than BRISK, AKAZE, KAZE,
MSER, ORB and SIFT, `descKeypoints` does what it does for FREAK: it returns the
result of the FREAK extractor. With a selector tag other than SEL_NN and
SEL_KNN, `matchDescriptors` returns without error, with the match list it was
given and descriptor sets of unchanged size, whatever the matcher tag is. -/
theorem unknown_tag_falls_through {Image : Type} (cv : OpenCV Image) (mcv : MatcherFactory)
    (keypoints kPtsSource kPtsRef : List KeyPoint) (img : Image) (descSource descRef : Mat)
    (matches_ : List DMatch) (tag descriptorType matcherType : String) :
    (tag ∉ ["BRISK", "SIFT", "FAST", "ORB", "AKAZE", "HARRIS"] →
      detKeypointsModern cv keypoints img tag
        = detKeypointsModern cv keypoints img "SHITOMASI" ∧
      (∀ gray, cv.cvtColorBGR2GRAY img = .ok gray →
        detKeypointsModern cv keypoints img tag = detKeypointsShiTomasi cv keypoints gray) ∧
      (∀ gray corners, cv.cvtColorBGR2GRAY img = .ok gray →
        cv.goodFeaturesToTrack gray = .ok corners →
        detKeypointsModern cv keypoints img tag
          = .ok (gray, keypoints ++ corners.map (fun c => ⟨⟨c.x, c.y⟩, 4, 0⟩)))) ∧
    (tag ∉ ["BRISK", "AKAZE", "KAZE", "MSER", "ORB", "SIFT"] →
      descKeypoints cv keypoints img tag = descKeypoints cv keypoints img "FREAK" ∧
      descKeypoints cv keypoints img tag = cv.computeFREAK img keypoints) ∧
    (tag ∉ ["SEL_NN", "SEL_KNN"] →
      ∃ ds dr, matchDescriptors mcv kPtsSource kPtsRef descSource descRef matches_
          descriptorType matcherType tag = .ok ⟨ds, dr, matches_⟩ ∧
        ds.rows = descSource.rows ∧ dr.rows = descRef.rows) := by
  refine ⟨?_, ?_, ?_⟩
  · intro h
    simp only [List.mem_cons, List.mem_singleton, List.not_mem_nil, or_false, not_or] at h
    obtain ⟨h1, h2, h3, h4, h5, h6⟩ := h
    have hgray : ∀ gray, cv.cvtColorBGR2GRAY img = .ok gray →
        detKeypointsModern cv keypoints img tag = detKeypointsShiTomasi cv keypoints gray := by
      intro gray hg
      unfold detKeypointsModern
      simp only [hg]
      rw [if_neg h1, if_neg h2, if_neg h3, if_neg h4, if_neg h5, if_neg h6]
    refine ⟨?_, hgray, ?_⟩
    · unfold detKeypointsModern
      cases cv.cvtColorBGR2GRAY img with
      | error e => rfl
      | ok gray =>
        simp only
        rw [if_neg h1, if_neg h2, if_neg h3, if_neg h4, if_neg h5, if_neg h6,
          if_neg (by decide), if_neg (by decide), if_neg (by decide), if_neg (by decide),
          if_neg (by decide), if_neg (by decide)]
    · intro gray corners hg hcorners
      rw [hgray gray hg]
      simp only [detKeypointsShiTomasi, hcorners]
  · intro h
    simp only [List.mem_cons, List.mem_singleton, List.not_mem_nil, or_false, not_or] at h
    obtain ⟨h1, h2, h3, h4, h5, h6⟩ := h
    have hfreak : descKeypoints cv keypoints img "FREAK" = cv.computeFREAK img keypoints := by
      unfold descKeypoints
      simp only
      rw [if_neg (by decide), if_neg (by decide), if_neg (by decide), if_neg (by decide),
        if_neg (by decide), if_neg (by decide)]
    have htag : descKeypoints cv keypoints img tag = cv.computeFREAK img keypoints := by
      unfold descKeypoints
      simp only
      rw [if_neg h1, if_neg h2, if_neg h3, if_neg h4, if_neg h5, if_neg h6]
    exact ⟨htag.trans hfreak.symm, htag⟩
  · intro h
    simp only [List.mem_cons, List.mem_singleton, List.not_mem_nil, or_false, not_or] at h
    obtain ⟨h1, h2⟩ := h
    refine ⟨_, _, ?_, (configureMatcher_rows mcv descSource descRef matcherType).1,
      (configureMatcher_rows mcv descSource descRef matcherType).2⟩
    unfold matchDescriptors
    simp only
    rw [if_neg h1, if_neg h2]

/-- C9, amended, instance: the tag `FOO` on the detector dispatch runs the
Shi-Tomasi corner search and returns its one keypoint. -/
theorem unknown_tag_falls_through_witness :
    "FOO" ∉ ["BRISK", "SIFT", "FAST", "ORB", "AKAZE", "HARRIS"] ∧
    detKeypointsModern stubCV [] () "FOO" = .ok ((), [] ++ [⟨⟨1, 1⟩, 4, 0⟩]) :=
  ⟨by decide,
   ((unknown_tag_falls_through stubCV ⟨gridMatcher, gridMatcher⟩ [] [] [] () ⟨0, []⟩ ⟨0, []⟩ []
      "FOO" "DES_BINARY" "MAT_BF").1 (by decide)).2.2 () [⟨1, 1⟩] rfl rfl⟩

end FeatureTracking
